import Mathlib

/-!
Verification development for the voice-call repository (browser voice
assistant front end).  The definitions below are shallow embeddings of the
TypeScript sources:

* `src/hooks/use-webrtc-dify.ts`  — streaming (Dify) orchestrator hook,
* `src/hooks/use-webrtc-gemini.ts` — blocking (Gemini) orchestrator hook,
* `src/hooks/use-visual-speech.ts` — camera-based visual speech detector.

Numbers that are IEEE doubles in the source are modelled as rationals (`ℚ`);
JavaScript strings are modelled as Lean `String`/`List Char`.  External
browser services (speech recognizer engine, speech synthesis, media tracks,
`JSON.parse`) appear either as explicit boolean fields of the state records
or as function parameters.
-/

namespace VoiceCall

/-- Message status, mirroring `status?: "speaking" | "processing" | "final"`
in `src/lib/conversations.ts`. -/
inductive MStatus where
  | speaking
  | processing
  | final
deriving DecidableEq, Repr

/-- A conversation message, mirroring the `Conversation` interface of
`src/lib/conversations.ts` (metadata is kept as an opaque optional blob). -/
structure Msg where
  id : String
  role : String
  text : String
  timestamp : String
  isFinal : Bool
  status : Option MStatus
  metadata : Option String
deriving DecidableEq, Repr

/-! ## Voice selection (`getSelectedVoice`, claim C9)

`use-webrtc-dify.ts` lines 478-499 and `use-webrtc-gemini.ts` lines 248-294
implement the identical resolution cascade. -/

/-- A speech-synthesis voice as used by `getSelectedVoice`: only the
`voiceURI`, `lang` and `name` fields are consulted. -/
structure SynthVoice where
  voiceURI : String
  lang : String
  name : String
deriving DecidableEq, Repr

/-- Mirrors `findVoiceByURI`: `getVoices().find(v => v.voiceURI === uri) || null`. -/
def findVoiceByURI (voices : List SynthVoice) (uri : String) : Option SynthVoice :=
  voices.find? (fun v => v.voiceURI == uri)

/-- `v.name.toLowerCase().includes("female")` — the female-designation test.
`String.toLower` matches `toLowerCase` on the ASCII names involved. -/
def femaleName (v : SynthVoice) : Bool :=
  ((v.name.toLower).splitOn "female").length != 1

/-- `v.lang.startsWith("vi")`. -/
def viLang (v : SynthVoice) : Bool :=
  v.lang.startsWith "vi"

/-- Shallow embedding of `getSelectedVoice` (Dify hook lines 482-499; the
Gemini variant at lines 257-294 is the same cascade).  The hook's `voice`
parameter is a string; the JS truthiness test `if (voice)` is `pref ≠ ""`. -/
def getSelectedVoice (pref : String) (voices : List SynthVoice) : Option SynthVoice :=
  let exact : Option SynthVoice :=
    if pref ≠ "" then findVoiceByURI voices pref else none
  match exact with
  | some v => some v
  | none =>
      ((((voices.find? (fun v => viLang v && femaleName v)).orElse
          (fun _ => voices.find? (fun v => viLang v))).orElse
          (fun _ => voices.find? (fun v => femaleName v))).orElse
          (fun _ => voices.head?))

/-- Modelled from the spec: the resolution order of section 4.2 / claim C9,
written as an explicit six-case priority cascade, to be compared with the
source-derived `getSelectedVoice`. -/
def resolveVoiceSpec (pref : String) (voices : List SynthVoice) : Option SynthVoice :=
  if pref != "" && (voices.any (fun v => v.voiceURI == pref)) then
    voices.find? (fun v => v.voiceURI == pref)
  else if voices.any (fun v => viLang v && femaleName v) then
    voices.find? (fun v => viLang v && femaleName v)
  else if voices.any (fun v => viLang v) then
    voices.find? (fun v => viLang v)
  else if voices.any (fun v => femaleName v) then
    voices.find? (fun v => femaleName v)
  else
    voices.head?

lemma any_of_find?_some {α : Type} {l : List α} {p : α → Bool} {v : α}
    (h : l.find? p = some v) : l.any p = true :=
  List.any_eq_true.mpr ⟨v, List.mem_of_find?_eq_some h, List.find?_some h⟩

lemma any_eq_false_of_find?_none {α : Type} {l : List α} {p : α → Bool}
    (h : l.find? p = none) : ¬ l.any p = true := by
  intro hany
  obtain ⟨x, hx, hpx⟩ := List.any_eq_true.mp hany
  have := List.find?_eq_none.mp h x hx
  exact this hpx

lemma voice_fallback_chain (voices : List SynthVoice) :
    ((((voices.find? (fun v => viLang v && femaleName v)).orElse
        (fun _ => voices.find? (fun v => viLang v))).orElse
        (fun _ => voices.find? (fun v => femaleName v))).orElse
        (fun _ => voices.head?)) =
      (if (voices.any fun v => viLang v && femaleName v) = true then
        voices.find? (fun v => viLang v && femaleName v)
      else if (voices.any fun v => viLang v) = true then
        voices.find? (fun v => viLang v)
      else if (voices.any fun v => femaleName v) = true then
        voices.find? (fun v => femaleName v)
      else voices.head?) := by
  cases h1 : voices.find? (fun v => viLang v && femaleName v) with
  | some v1 => simp [Option.orElse, any_of_find?_some h1]
  | none =>
      have a1 := any_eq_false_of_find?_none h1
      cases h2 : voices.find? (fun v => viLang v) with
      | some v2 => simp [Option.orElse, a1, any_of_find?_some h2]
      | none =>
          have a2 := any_eq_false_of_find?_none h2
          cases h3 : voices.find? (fun v => femaleName v) with
          | some v3 => simp [Option.orElse, a1, a2, any_of_find?_some h3]
          | none =>
              have a3 := any_eq_false_of_find?_none h3
              simp [Option.orElse, a1, a2, a3]

/-- claim C9 — confirmed.  For every available-voices list and every optional
preferred identifier (empty string modelling "no preference"), the source's
`getSelectedVoice` returns exactly the first match of the six-step cascade of
the specification: exact URI match, then Vietnamese female, then Vietnamese,
then female, then the first voice, then `none` on an empty list. -/
theorem C9_voice_resolution_order (pref : String) (voices : List SynthVoice) :
    getSelectedVoice pref voices = resolveVoiceSpec pref voices := by
  unfold getSelectedVoice resolveVoiceSpec findVoiceByURI
  by_cases hp : pref = ""
  · subst hp
    simpa using voice_fallback_chain voices
  · have hbne : (pref != "") = true := bne_iff_ne.mpr hp
    cases hf : voices.find? (fun v => v.voiceURI == pref) with
    | some v =>
        simp [hp, hbne, hf, any_of_find?_some hf]
    | none =>
        have ha : (voices.any fun v => v.voiceURI == pref) = false := by
          have := any_eq_false_of_find?_none hf
          simpa using this
        simp only [ne_eq, hp, not_false_eq_true, if_true, hf, ha, Bool.and_false,
          Bool.false_eq_true, if_false]
        simpa using voice_fallback_chain voices

/-! ## Noise filter of `recognition.onresult` (claim C5)

`use-webrtc-dify.ts` lines 531-580.  The handler accumulates `final` and
`interim` transcripts, reads the current volume, and classifies fragments
with the local `isNoise` predicate before acting. -/

/-- Whitespace-trimming on character lists, mirroring JS `String.trim()`. -/
def trimChars (l : List Char) : List Char :=
  ((l.dropWhile Char.isWhitespace).reverse.dropWhile Char.isWhitespace).reverse

/-- Split a character list at every character satisfying `p` (the pieces, in
order, empty pieces included), mirroring splitting on a whitespace regex for
whitespace-free interiors. -/
def splitPred (p : Char → Bool) : List Char → List (List Char)
  | [] => [[]]
  | c :: cs =>
      let r := splitPred p cs
      if p c then [] :: r
      else
        match r with
        | [] => [[c]]
        | l :: ls => (c :: l) :: ls

/-- `NOISE_SINGLE_WORDS = ["phẩy", ",", "comma"]`, as character lists. -/
def noiseSingleWords : List (List Char) := ["phẩy".toList, ",".toList, "comma".toList]

/-- Shallow embedding of the local `isNoise` closure (lines 544-558).
`vol` is `currentVolumeRef.current`; the threshold is
`NOISE_VOLUME_THRESHOLD = fast ? 8 : 10`.  `trimmed` mirrors
`text.trim().toLowerCase()` (ASCII lowering suffices for the denylist
entries); the single-token test mirrors `split(/\s+/).length === 1` and the
length tests mirror JS `length` (all relevant characters are single units). -/
def isNoise (fast : Bool) (vol : ℚ) (text : String) : Bool :=
  let trimmed := (trimChars text.toList).map Char.toLower
  let thr : ℚ := if fast then 8 else 10
  if trimmed.isEmpty then true
  else if (splitPred Char.isWhitespace trimmed).length == 1
      && decide (trimmed.length ≤ 5)
      && decide (vol < thr)
      && noiseSingleWords.contains trimmed then true
  else if decide (trimmed.length < 2) && decide (vol < thr) then true
  else false

/-- The visible effect of one `onresult` callback on the conversation flow. -/
inductive SpeechAction where
  /-- The fragment was classified as noise (or both texts empty): no message
  is created or updated. -/
  | ignore
  /-- A final fragment was accepted: `handleUserSpeech(final)` is invoked. -/
  | submit (text : String)
  /-- An interim fragment was accepted: the ephemeral user message is
  created/updated with the text. -/
  | ephemeralUpdate (text : String)
deriving DecidableEq, Repr

/-- Shallow embedding of the dispatch at the end of `onresult`
(lines 560-579): a non-empty final fragment is submitted unless noisy, else a
non-empty interim fragment updates the ephemeral message unless noisy. -/
def onresultAction (fast : Bool) (vol : ℚ) (finalText interimText : String) :
    SpeechAction :=
  if finalText ≠ "" then
    if isNoise fast vol finalText then .ignore else .submit finalText
  else if interimText ≠ "" then
    if isNoise fast vol interimText then .ignore else .ephemeralUpdate interimText
  else .ignore

/-- claim C5 — confirmed.  The fragment `","` at volume 5 (below both the
fast-mode threshold 8 and the normal threshold 10) is classified as noise and
dropped whether final or interim; the same fragment at volume 50 is accepted
(submitted when final, written to the ephemeral message when interim); and
the final and interim paths use the very same `isNoise` classifier. -/
theorem C5_noise_filter (fast : Bool) :
    isNoise fast 5 "," = true ∧
    isNoise fast 50 "," = false ∧
    onresultAction fast 5 "," "" = .ignore ∧
    onresultAction fast 5 "" "," = .ignore ∧
    onresultAction fast 50 "," "" = .submit "," ∧
    onresultAction fast 50 "" "," = .ephemeralUpdate "," ∧
    (∀ vol t, t ≠ "" →
      (onresultAction fast vol t "" = .ignore ↔ isNoise fast vol t = true) ∧
      (onresultAction fast vol "" t = .ignore ↔ isNoise fast vol t = true)) := by
  refine ⟨?_, ?_, ?_, ?_, ?_, ?_, ?_⟩
  · cases fast <;> decide
  · cases fast <;> decide
  · cases fast <;> decide
  · cases fast <;> decide
  · cases fast <;> decide
  · cases fast <;> decide
  · intro vol t ht
    constructor
    · unfold onresultAction
      rw [if_pos ht]
      constructor
      · intro h
        by_cases hn : isNoise fast vol t
        · exact hn
        · rw [if_neg (by simp [hn])] at h
          exact absurd h (by simp)
      · intro h
        rw [if_pos (by simp [h])]
    · unfold onresultAction
      rw [if_neg (by simp), if_pos ht]
      constructor
      · intro h
        by_cases hn : isNoise fast vol t
        · exact hn
        · rw [if_neg (by simp [hn])] at h
          exact absurd h (by simp)
      · intro h
        rw [if_pos (by simp [h])]

/-- Witness for `C5_noise_filter`: instantiate the quantified clause at a
concrete fragment and volume. -/
theorem C5_noise_filter_witness :
    ("," : String) ≠ "" ∧
    (onresultAction true 5 "," "" = .ignore ↔ isNoise true 5 "," = true) := by
  refine ⟨by decide, ?_⟩
  exact ((C5_noise_filter true).2.2.2.2.2.2 5 "," (by decide)).1

/-! ## No-speech backoff (claims C2)

`use-webrtc-dify.ts`: `scheduleRecognitionRestart` (lines 326-363) clamps the
requested delay in fast mode by reason, and the `onerror` handler
(lines 607-645) computes the quadratic backoff for `no-speech` errors and
pauses after 6 consecutive attempts. -/

/-- Restart reasons that matter to fast-mode clamping: `"cycle_onend"`,
`"no_speech_<n>"` (matched by `startsWith("no_speech_")`), `"tts_end"`, and
everything else (`"aborted"`, `"generic_error"`, `"tts_error"`). -/
inductive RestartReason where
  | cycleOnEnd
  | noSpeech
  | ttsEnd
  | other
deriving DecidableEq, Repr

/-- The delay actually passed to `setTimeout` by `scheduleRecognitionRestart`
(lines 327-331): in fast mode the requested delay is clamped per reason. -/
def scheduledDelay (fast : Bool) (r : RestartReason) (delay : ℕ) : ℕ :=
  if fast then
    match r with
    | .cycleOnEnd => min delay 120
    | .noSpeech => min delay 1500
    | .ttsEnd => min delay 100
    | .other => delay
  else delay

/-- The quadratic no-speech backoff computed by the `onerror` handler
(lines 622-625): `Math.min(500 + (attempts-1)*(attempts-1)*400, 6000)`. -/
def noSpeechFormula (attempts : ℕ) : ℕ :=
  min (500 + (attempts - 1) * (attempts - 1) * 400) 6000

/-- A restart actually scheduled (a `setTimeout` armed by
`scheduleRecognitionRestart`), tagged by the reason string and carrying the
clamped delay: `no_speech_<n>` from the `onerror` handler, `cycle_onend`
from the recognizer's `onend`. -/
inductive SchedEvt where
  | noSpeechRestart (delay : ℕ)
  | cycleRestart (delay : ℕ)
deriving DecidableEq, Repr

/-- The refs of the hook that the no-speech handlers read and write:
`isSessionActiveRef`, `ttsInProgressRef`, `recognitionActiveRef`,
`pendingRestartRef`, `consecutiveNoSpeechRef`. -/
structure NsState where
  sessionActive : Bool
  ttsInProgress : Bool
  recognitionActive : Bool
  pendingRestart : Bool
  consec : ℕ
deriving DecidableEq, Repr

/-- `recognition.onerror` with `error === "no-speech"` (lines 619-640):
if the session is inactive return; increment the consecutive counter; at 6
attempts return without scheduling; otherwise schedule a `no_speech_<n>`
restart whose delay is the quadratic backoff passed through
`scheduleRecognitionRestart`'s fast-mode clamp (`pendingRestartRef` set). -/
def noSpeechErrEvt (fast : Bool) (s : NsState) : NsState × Option SchedEvt :=
  if !s.sessionActive then (s, none)
  else
    let attempts := s.consec + 1
    if attempts ≥ 6 then ({ s with consec := attempts }, none)
    else ({ s with consec := attempts, pendingRestart := true },
          some (.noSpeechRestart (scheduledDelay fast .noSpeech (noSpeechFormula attempts))))

/-- `recognition.onend` (lines 588-606): clear `recognitionActiveRef`; if the
session is inactive or TTS is in flight return; if a restart is already
pending return; otherwise schedule a `cycle_onend` restart of requested
delay 300, clamped to 120 in fast mode (`pendingRestartRef` set). -/
def recogEndEvt (fast : Bool) (s : NsState) : NsState × Option SchedEvt :=
  let s0 := { s with recognitionActive := false }
  if !s0.sessionActive then (s0, none)
  else if s0.ttsInProgress then (s0, none)
  else if s0.pendingRestart then (s0, none)
  else ({ s0 with pendingRestart := true },
        some (.cycleRestart (scheduledDelay fast .cycleOnEnd 300)))

/-- One failed listening attempt: the pending restart timer fires (its
callback's first statement, line 340, clears `pendingRestartRef`; in this
scenario the started attempt yields no speech, and the successful-`onstart`
acknowledgement that would reset the counter does not occur), then the
recognizer raises the `no-speech` error, then its `onend` fires — an error
is always followed by the engine ending the attempt.  Collects the restarts
scheduled during the attempt. -/
def noSpeechCycle (fast : Bool) (s : NsState) : NsState × List SchedEvt :=
  let s0 := { s with pendingRestart := false }
  let p := noSpeechErrEvt fast s0
  let q := recogEndEvt fast p.1
  (q.1, p.2.toList ++ q.2.toList)

/-- An active session, no TTS in flight, recognition attempt running, no
timer pending, zero consecutive no-speech errors. -/
def nsInit : NsState :=
  ⟨true, false, true, false, 0⟩

/-- Run `n` consecutive failed listening attempts from `nsInit`, collecting
the per-attempt scheduled restarts. -/
def noSpeechCycles (fast : Bool) : ℕ → NsState × List (List SchedEvt)
  | 0 => (nsInit, [])
  | n + 1 =>
      let p := noSpeechCycles fast n
      let q := noSpeechCycle fast p.1
      (q.1, p.2 ++ [q.2])

/-- The delay formula claimed by the specification:
`min(base + (n-1)²·step, cap)` with base 500, step 400, cap 6000. -/
def specNoSpeechDelay (n : ℕ) : ℕ :=
  min (500 + (n - 1) * (n - 1) * 400) 6000

/-- One failed attempt from any active-session, TTS-free state: the counter
increments, and exactly one restart is scheduled — a `no_speech_<n>` one by
the error handler below 6 attempts (the following `onend` then finds the
restart pending and returns), and a `cycle_onend` one by the `onend` from
the 6th attempt on (the error handler pauses, so the `onend` finds no
pending restart). -/
theorem noSpeechCycle_eq (fast : Bool) (s : NsState)
    (h1 : s.sessionActive = true) (h2 : s.ttsInProgress = false) :
    noSpeechCycle fast s =
      (⟨true, false, false, true, s.consec + 1⟩,
       if s.consec + 1 ≥ 6 then
         [SchedEvt.cycleRestart (scheduledDelay fast .cycleOnEnd 300)]
       else
         [SchedEvt.noSpeechRestart
            (scheduledDelay fast .noSpeech (noSpeechFormula (s.consec + 1)))]) := by
  by_cases h6 : 5 ≤ s.consec <;>
    simp [noSpeechCycle, noSpeechErrEvt, recogEndEvt, h1, h2, h6]

/-- Full characterization of a run of failed attempts: the session stays
active and TTS-free, the counter counts the attempts, and the attempt log
follows the per-attempt schedule of `noSpeechCycle_eq`. -/
theorem noSpeechCycles_spec (fast : Bool) (n : ℕ) :
    (noSpeechCycles fast n).1.sessionActive = true ∧
    (noSpeechCycles fast n).1.ttsInProgress = false ∧
    (noSpeechCycles fast n).1.consec = n ∧
    (noSpeechCycles fast n).2 = (List.range n).map (fun i =>
      if i + 1 ≥ 6 then
        [SchedEvt.cycleRestart (scheduledDelay fast .cycleOnEnd 300)]
      else
        [SchedEvt.noSpeechRestart
           (scheduledDelay fast .noSpeech (specNoSpeechDelay (i + 1)))]) := by
  induction n with
  | zero => exact ⟨rfl, rfl, rfl, rfl⟩
  | succ m ih =>
      obtain ⟨h1, h2, h3, h4⟩ := ih
      have hc := noSpeechCycle_eq fast (noSpeechCycles fast m).1 h1 h2
      rw [h3] at hc
      refine ⟨?_, ?_, ?_, ?_⟩
      · show (noSpeechCycle fast (noSpeechCycles fast m).1).1.sessionActive = true
        rw [hc]
      · show (noSpeechCycle fast (noSpeechCycles fast m).1).1.ttsInProgress = false
        rw [hc]
      · show (noSpeechCycle fast (noSpeechCycles fast m).1).1.consec = m + 1
        rw [hc]
      · show (noSpeechCycles fast m).2 ++
            [(noSpeechCycle fast (noSpeechCycles fast m).1).2] = _
        rw [hc, h4, List.range_succ, List.map_append]
        rfl

/-- claim C2 — counterexample.  With fast mode enabled (the hook's default:
`options?.fast ?? true`, and `page.tsx` passes no options), the third
consecutive no-speech restart is scheduled with delay 1500 — the clamp of
`scheduleRecognitionRestart` — not the claimed `min(500 + 2²·400, 6000)
= 2100`; and the 6th failed attempt, which the claim says schedules no
restart until explicit user action, ends with the recognizer's `onend`
finding no pending restart and scheduling a `cycle_onend` restart of 120 ms
with no user action at all. -/
theorem C2_backoff_counterexample :
    (noSpeechCycles true 6).2 =
      [[SchedEvt.noSpeechRestart 500], [SchedEvt.noSpeechRestart 900],
       [SchedEvt.noSpeechRestart 1500], [SchedEvt.noSpeechRestart 1500],
       [SchedEvt.noSpeechRestart 1500], [SchedEvt.cycleRestart 120]] ∧
    specNoSpeechDelay 3 = 2100 ∧
    (1500 : ℕ) ≠ 2100 := by
  decide

/-- claim C2 — amended.  For consecutive failed listening attempts of an
active session with no TTS in flight (each attempt: the `no-speech` error
followed by the recognizer's `onend`; no successful `onstart` in between,
which would reset the counter): the n-th attempt for n < 6 schedules a
restart with delay `min(500 + (n-1)²·400, 6000)` further clamped to at most
1500 ms in fast mode; from the 6th attempt on the no-speech handler itself
schedules nothing, but the `onend` that follows every error finds no pending
restart and schedules a `cycle_onend` restart (requested 300 ms, clamped to
120 ms in fast mode) — recognition keeps restarting with no user action. -/
theorem C2_no_speech_backoff (fast : Bool) (n : ℕ) :
    (noSpeechCycles fast n).1.consec = n ∧
    (noSpeechCycles fast n).2 = (List.range n).map (fun i =>
      if i + 1 ≥ 6 then
        [SchedEvt.cycleRestart (scheduledDelay fast .cycleOnEnd 300)]
      else
        [SchedEvt.noSpeechRestart
           (scheduledDelay fast .noSpeech (specNoSpeechDelay (i + 1)))]) :=
  ⟨(noSpeechCycles_spec fast n).2.2.1, (noSpeechCycles_spec fast n).2.2.2⟩

/-! ## Orchestrator flag-level step relation (claim C1)

State fields mirror the refs of `useWebRTCDifySession`:
`isSessionActiveRef`, `recognitionRef` (presence), `recognitionActiveRef`,
`ttsInProgressRef`, `pendingRestartRef`/restart timer, and
`consecutiveNoSpeechRef`.  Events are the handler invocations of the hook;
each case is a direct transcription of the corresponding handler body.
`recognition.start()` issued by the restart timer is modelled synchronously
together with its `onstart` acknowledgement (flag set, counter reset); the
camera-gate effect sets `recognitionActiveRef` itself, as in the source. -/

structure OrchState where
  sessionActive : Bool
  recognitionSet : Bool
  recognitionActive : Bool
  ttsInProgress : Bool
  pendingRestart : Bool
  consecNoSpeech : ℕ
deriving DecidableEq, Repr

/-- The initial (idle) state: all refs false / null / zero. -/
def orchInit : OrchState :=
  ⟨false, false, false, false, false, 0⟩

/-- Handler-level events of the orchestrator. -/
inductive OrchEvent where
  /-- `startSession` succeeding (mic granted, `initializeSpeech` done); the
  Dify variant does not start recognition here (it waits for the camera). -/
  | startOk
  /-- `stopSession`. -/
  | stop
  /-- The camera-speaking `useEffect` (lines 851-877) running with the given
  `camSpeaking` value. -/
  | camGate (speaking : Bool)
  /-- The scheduled restart timer firing (lines 339-362), fused with the
  recognizer's `onstart` acknowledgement (lines 581-587). -/
  | timerFire
  /-- `recognition.onend` (lines 588-606). -/
  | recogEnd
  /-- `recognition.onerror` with `error === "no-speech"` (lines 619-640). -/
  | noSpeechErr
  /-- `recognition.onerror` with `error === "aborted"` (lines 609-615). -/
  | abortedErr
  /-- `recognition.onerror`, any other error (lines 641-644). -/
  | otherErr
  /-- `speak(text)` with non-empty text and an initialized synth
  (lines 734-771, up to `synth.speak`). -/
  | speakStart
  /-- `utterance.onend` (lines 759-764). -/
  | ttsEnd
  /-- `utterance.onerror` (lines 765-769). -/
  | ttsErr
deriving DecidableEq, Repr

/-- One step of the orchestrator: each branch transcribes the corresponding
handler in `use-webrtc-dify.ts`. -/
def orchStep (s : OrchState) (e : OrchEvent) : OrchState :=
  match e with
  | .startOk =>
      { s with sessionActive := true, recognitionSet := true }
  | .stop =>
      { sessionActive := false, recognitionSet := false,
        recognitionActive := false, ttsInProgress := false,
        pendingRestart := false, consecNoSpeech := 0 }
  | .camGate speaking =>
      if !s.sessionActive || !s.recognitionSet then s
      else if speaking then
        if !s.recognitionActive then { s with recognitionActive := true } else s
      else
        if s.recognitionActive then { s with recognitionActive := false } else s
  | .timerFire =>
      if !s.pendingRestart then s
      else
        let s0 := { s with pendingRestart := false }
        if !s0.sessionActive || s0.ttsInProgress then s0
        else if s0.recognitionActive then s0
        else if !s0.recognitionSet then s0
        else { s0 with recognitionActive := true, consecNoSpeech := 0 }
  | .recogEnd =>
      let s0 := { s with recognitionActive := false }
      if !s0.sessionActive then s0
      else if s0.ttsInProgress then s0
      else if s0.pendingRestart then s0
      else { s0 with pendingRestart := true }
  | .noSpeechErr =>
      if !s.sessionActive then s
      else
        let attempts := s.consecNoSpeech + 1
        if attempts ≥ 6 then { s with consecNoSpeech := attempts }
        else { s with consecNoSpeech := attempts, pendingRestart := true }
  | .abortedErr =>
      if !s.sessionActive || s.ttsInProgress then s
      else if !s.pendingRestart then { s with pendingRestart := true }
      else s
  | .otherErr =>
      if !s.sessionActive then s
      else { s with pendingRestart := true }
  | .speakStart =>
      let s0 := { s with ttsInProgress := true, pendingRestart := false }
      if s0.recognitionActive && s0.recognitionSet then
        { s0 with recognitionActive := false }
      else s0
  | .ttsEnd =>
      let s0 := { s with ttsInProgress := false }
      if s0.sessionActive then { s0 with pendingRestart := true } else s0
  | .ttsErr =>
      let s0 := { s with ttsInProgress := false }
      if s0.sessionActive then { s0 with pendingRestart := true } else s0

/-- Run a trace of events from a state. -/
def orchRun (s : OrchState) (es : List OrchEvent) : OrchState :=
  es.foldl orchStep s

/-- claim C1 — the code violates the mutual-exclusion invariant.  The trace
is fully realistic: the session starts, the camera gate starts recognition,
a finished answer begins TTS playback (`speak` stops recognition and raises
`ttsInProgress`), the camera sees the user's mouth close and reopen while the
utterance is still playing — and the camera-gate effect, which checks neither
`ttsInProgressRef` nor the restart guards, calls `recognition.start()` and
sets `recognitionActiveRef = true` while `ttsInProgressRef` is still true:
both tracked flags are true in a reachable state. -/
theorem C1_camera_gate_breaks_mutex :
    (orchRun orchInit [OrchEvent.startOk, OrchEvent.camGate true,
      OrchEvent.speakStart, OrchEvent.camGate false,
      OrchEvent.camGate true]).recognitionActive = true ∧
    (orchRun orchInit [OrchEvent.startOk, OrchEvent.camGate true,
      OrchEvent.speakStart, OrchEvent.camGate false,
      OrchEvent.camGate true]).ttsInProgress = true := by
  decide

/-! ## Session teardown (claims C7 and C8)

`stopSession` of `use-webrtc-dify.ts` (lines 814-845) and of
`use-webrtc-gemini.ts` (lines 628-681).  Resource handles are modelled as
presence booleans (`…Set` = the ref is non-null) together with an engine
boolean where the claim speaks about the underlying resource (synth
utterance playing, media tracks live, audio context open, recognizer engine
running). -/

structure DifyState where
  recognitionSet : Bool
  recognitionActive : Bool
  recognitionEngineOn : Bool
  synthSet : Bool
  synthSpeaking : Bool
  audioStreamSet : Bool
  audioTracksLive : Bool
  audioContextSet : Bool
  audioContextOpen : Bool
  volumeIntervalSet : Bool
  volumeRafSet : Bool
  analyserSet : Bool
  ephemeralId : Option String
  sessionActive : Bool
  pendingRestart : Bool
  ttsInProgress : Bool
  consecNoSpeech : ℕ
  currentVolume : ℚ
  statusText : String
  conversationId : Option String
  conversation : List Msg
deriving DecidableEq, Repr

/-- The status string set by the Dify `stopSession`. -/
def stoppedStatusDify : String := "Đã dừng phiên"

/-- Shallow embedding of the Dify `stopSession` (lines 814-845).  The source
statements each touch disjoint refs, so the sequential body is rendered
field-parallel; conditional statements (`x?.op()`, `if (ref) …`) become
guarded boolean expressions (`!cond && old` = "set to false only when the
guard held").  The guarded `recognition.stop()` sits in a try/catch whose
exception is swallowed, so the function is total. -/
def stopSessionDify (s : DifyState) : DifyState where
  -- if (recognitionRef.current && recognitionActiveRef.current) try stop()
  recognitionEngineOn := !(s.recognitionSet && s.recognitionActive) && s.recognitionEngineOn
  -- recognitionActiveRef.current = false; recognitionRef.current = null
  recognitionActive := false
  recognitionSet := false
  -- synthRef.current?.cancel()  (the synth ref itself is not nulled)
  synthSet := s.synthSet
  synthSpeaking := !s.synthSet && s.synthSpeaking
  -- audioStreamRef.current.getTracks().forEach(stop); ref = null
  audioStreamSet := false
  audioTracksLive := !s.audioStreamSet && s.audioTracksLive
  -- audioContextRef.current?.close(); audioContextRef.current = null
  audioContextSet := false
  audioContextOpen := !s.audioContextSet && s.audioContextOpen
  -- clearInterval / cancelAnimationFrame
  volumeIntervalSet := false
  volumeRafSet := false
  -- analyser, ephemeral id, flags, timer, counters, volume, status
  analyserSet := false
  ephemeralId := none
  sessionActive := false
  pendingRestart := false
  ttsInProgress := false
  consecNoSpeech := 0
  currentVolume := 0
  statusText := stoppedStatusDify
  -- not touched by stopSession:
  conversationId := s.conversationId
  conversation := s.conversation

structure GeminiState where
  recognitionSet : Bool
  recognitionEngineOn : Bool
  synthSet : Bool
  synthSpeaking : Bool
  audioStreamSet : Bool
  audioTracksLive : Bool
  audioContextSet : Bool
  audioContextOpen : Bool
  volumeIntervalSet : Bool
  analyserSet : Bool
  indicatorSet : Bool
  indicatorActive : Bool
  ephemeralId : Option String
  sessionActive : Bool
  currentVolume : ℚ
  statusText : String
  msgs : List String
  conversation : List Msg
deriving DecidableEq, Repr

/-- The status string set by the Gemini `stopSession`. -/
def stoppedStatusGemini : String := "Phiên đã dừng"

/-- Shallow embedding of the Gemini `stopSession` (lines 628-681), rendered
field-parallel like `stopSessionDify`. -/
def stopSessionGemini (s : GeminiState) : GeminiState where
  -- if (recognitionRef.current) { stop(); ref = null }
  recognitionEngineOn := !s.recognitionSet && s.recognitionEngineOn
  recognitionSet := false
  -- if (synthRef.current) synthRef.current.cancel()
  synthSet := s.synthSet
  synthSpeaking := !s.synthSet && s.synthSpeaking
  -- stop tracks, null the stream ref
  audioStreamSet := false
  audioTracksLive := !s.audioStreamSet && s.audioTracksLive
  -- close audio context, null the ref
  audioContextSet := false
  audioContextOpen := !s.audioContextSet && s.audioContextOpen
  -- clearInterval; analyser := null
  volumeIntervalSet := false
  analyserSet := false
  -- if (audioIndicatorRef.current) classList.remove("active")
  indicatorSet := s.indicatorSet
  indicatorActive := !s.indicatorSet && s.indicatorActive
  -- ephemeral id, volume, session flag, status, msgs, conversation
  ephemeralId := none
  currentVolume := 0
  sessionActive := false
  statusText := stoppedStatusGemini
  msgs := []
  conversation := []

/-- A concrete pre-stop Dify state holding one finalized message. -/
def difyBusyState : DifyState :=
  { recognitionSet := true, recognitionActive := true, recognitionEngineOn := true,
    synthSet := true, synthSpeaking := true,
    audioStreamSet := true, audioTracksLive := true,
    audioContextSet := true, audioContextOpen := true,
    volumeIntervalSet := false, volumeRafSet := true, analyserSet := true,
    ephemeralId := some "e1", sessionActive := true, pendingRestart := true,
    ttsInProgress := true, consecNoSpeech := 2, currentVolume := 12,
    statusText := "Đang nghe...", conversationId := some "c1",
    conversation := [⟨"m1", "user", "Xin chào", "t0", true, some .final, none⟩] }

/-- claim C7 — counterexample.  In the Dify hook (a cited source of the
claim), `stopSession` leaves the conversation transcript untouched: stopping
from a state with one message keeps that message, so the transcript is not
empty after `stopSession` returns. -/
theorem C7_dify_transcript_not_cleared :
    (stopSessionDify difyBusyState).conversation =
      [⟨"m1", "user", "Xin chào", "t0", true, some .final, none⟩] ∧
    (stopSessionDify difyBusyState).conversation ≠ [] := by
  decide

/-- claim C7 — amended.  Stopping performs the cleanup: recognition flag
cleared and recognizer ref dropped (with the engine stopped when it was
tracked active), TTS cancelled (flag cleared, any playing utterance
cancelled when a synth is present), microphone stream and audio-analysis
resources released, ephemeral user-message state cleared, flags, counters
and volume reset — but only the Gemini variant clears the conversation
transcript; the Dify variant retains it unchanged. -/
theorem C7_stop_cleanup (s : DifyState) (g : GeminiState) :
    ((stopSessionDify s).recognitionActive = false ∧
     (stopSessionDify s).recognitionSet = false ∧
     ((stopSessionDify s).recognitionEngineOn =
        (!(s.recognitionSet && s.recognitionActive) && s.recognitionEngineOn)) ∧
     (stopSessionDify s).ttsInProgress = false ∧
     ((stopSessionDify s).synthSpeaking = (!s.synthSet && s.synthSpeaking)) ∧
     (stopSessionDify s).audioStreamSet = false ∧
     ((stopSessionDify s).audioTracksLive = (!s.audioStreamSet && s.audioTracksLive)) ∧
     (stopSessionDify s).audioContextSet = false ∧
     ((stopSessionDify s).audioContextOpen = (!s.audioContextSet && s.audioContextOpen)) ∧
     (stopSessionDify s).volumeIntervalSet = false ∧
     (stopSessionDify s).volumeRafSet = false ∧
     (stopSessionDify s).analyserSet = false ∧
     (stopSessionDify s).ephemeralId = none ∧
     (stopSessionDify s).sessionActive = false ∧
     (stopSessionDify s).pendingRestart = false ∧
     (stopSessionDify s).consecNoSpeech = 0 ∧
     (stopSessionDify s).currentVolume = 0 ∧
     (stopSessionDify s).statusText = stoppedStatusDify ∧
     (stopSessionDify s).conversation = s.conversation) ∧
    ((stopSessionGemini g).conversation = [] ∧
     (stopSessionGemini g).ephemeralId = none ∧
     (stopSessionGemini g).sessionActive = false ∧
     ((stopSessionGemini g).synthSpeaking = (!g.synthSet && g.synthSpeaking)) ∧
     (stopSessionGemini g).audioStreamSet = false ∧
     ((stopSessionGemini g).audioTracksLive = (!g.audioStreamSet && g.audioTracksLive))) := by
  exact ⟨⟨rfl, rfl, rfl, rfl, rfl, rfl, rfl, rfl, rfl, rfl, rfl, rfl, rfl, rfl,
          rfl, rfl, rfl, rfl, rfl⟩,
         ⟨rfl, rfl, rfl, rfl, rfl, rfl⟩⟩

/-- claim C8 — confirmed.  The Dify `stopSession` is idempotent (it is a
total function — the only statement that can throw is wrapped in try/catch —
and applying it twice equals applying it once), and a single application
already yields the terminal state: all flags false, all resource handles
null, counters and volume reset, status the stopped status. -/
theorem C8_stop_idempotent (s : DifyState) :
    stopSessionDify (stopSessionDify s) = stopSessionDify s ∧
    (stopSessionDify s).sessionActive = false ∧
    (stopSessionDify s).recognitionActive = false ∧
    (stopSessionDify s).ttsInProgress = false ∧
    (stopSessionDify s).pendingRestart = false ∧
    (stopSessionDify s).recognitionSet = false ∧
    (stopSessionDify s).audioStreamSet = false ∧
    (stopSessionDify s).audioContextSet = false ∧
    (stopSessionDify s).volumeIntervalSet = false ∧
    (stopSessionDify s).volumeRafSet = false ∧
    (stopSessionDify s).analyserSet = false ∧
    (stopSessionDify s).ephemeralId = none ∧
    (stopSessionDify s).consecNoSpeech = 0 ∧
    (stopSessionDify s).currentVolume = 0 ∧
    (stopSessionDify s).statusText = stoppedStatusDify := by
  refine ⟨?_, rfl, rfl, rfl, rfl, rfl, rfl, rfl, rfl, rfl, rfl, rfl, rfl, rfl, rfl⟩
  cases hs : s.synthSet <;> simp [stopSessionDify, hs]

/-! ## SSE streaming adapter `streamDify` (claims C3 and C4)

`use-webrtc-dify.ts` lines 149-261.  The byte stream delivered by
`reader.read()` is modelled as a list of character-list reads (`TextDecoder`
reassembles split UTF-8 sequences, so characters are the right granularity).
`JSON.parse` is an external library call and is therefore a parameter
`parse : String → Option DChunk`; `none` models a parse exception, which the
source logs and skips. -/

/-- The fields of a parsed stream record that `streamDify` consults
(`DifyChatStreamChunk`).  `errMsg` is `error.message`; `metadata` is kept as
an opaque optional blob. -/
structure DChunk where
  event : Option String
  answer : Option String
  conversationId : Option String
  errMsg : Option String
  metadata : Option String
deriving DecidableEq, Repr

/-- The mutable locals of the read loop apart from `buffer`:
`full`, `conversationId`, `lastMetadata`. -/
structure SCore where
  full : String
  cid : Option String
  meta : Option String
deriving DecidableEq, Repr

/-- The argument of a terminal `onDone` call. -/
structure DoneRes where
  text : String
  cid : Option String
  meta : Option String
deriving DecidableEq, Repr

/-- The `"data: "` line marker. -/
def dataMark : List Char := "data: ".toList

/-- The `{` character (JSON-object fallback test `line.startsWith("{")`). -/
def lbraceChar : Char := Char.ofNat 123

/-- Concatenation of emitted chunk texts, in order. -/
def catStrs : List String → String
  | [] => ""
  | a :: as => a ++ catStrs as

/-- Payload extraction from a trimmed line: the `data: ` marker (stripping
and re-trimming the remainder) or the bare-JSON fallback `startsWith("{")`. -/
def linePayload (t : List Char) : Option (List Char) :=
  if dataMark.isPrefixOf t then some (trimChars (t.drop 6))
  else if t.headD ' ' == lbraceChar then some t
  else none

/-- `if (json.conversation_id) conversationId = json.conversation_id`
(truthiness: a non-empty string). -/
def cidUpdate (core : SCore) (cido : Option String) : SCore :=
  match cido with
  | some cid => if cid ≠ "" then { core with cid := some cid } else core
  | none => core

/-- `if (json.answer) { full += json.answer; handlers.onChunk(json.answer) }`
(truthiness: a non-empty string); returns the emissions and updated core. -/
def answerStep (core1 : SCore) (ao : Option String) : List String × SCore :=
  match ao with
  | some a =>
      if a ≠ "" then ([a], { core1 with full := core1.full ++ a })
      else ([], core1)
  | none => ([], core1)

/-- Processing of one complete line of the stream (lines 186-236): trim,
recognise the `data: ` marker (or a bare JSON object), handle the `[DONE]`
sentinel, otherwise parse; a parse failure or an `error` payload (whose
`throw` is caught by the same `catch`) is skipped; then `conversation_id`,
`answer` (appended to `full` and emitted) and `message_end` are handled in
source order.  `Except.error` carries an early `onDone`. -/
def procLine (parse : String → Option DChunk) (core : SCore) (line : List Char) :
    List String × Except DoneRes SCore :=
  let t := trimChars line
  if t.isEmpty then ([], .ok core)
  else
    match linePayload t with
    | none => ([], .ok core)
    | some p =>
        if p = "[DONE]".toList then
          ([], .error ⟨core.full, core.cid, core.meta⟩)
        else
          match parse (String.mk p) with
          | none => ([], .ok core)
          | some c =>
              if c.errMsg.isSome then ([], .ok core)
              else
                let step2 := answerStep (cidUpdate core c.conversationId) c.answer
                if c.event == some "message_end" then
                  (step2.1, .error ⟨step2.2.full, step2.2.cid, c.metadata⟩)
                else (step2.1, .ok step2.2)

/-- Process a list of complete lines in order, stopping at an early done. -/
def procLines (parse : String → Option DChunk) (core : SCore) :
    List (List Char) → List String × Except DoneRes SCore
  | [] => ([], .ok core)
  | l :: ls =>
      match procLine parse core l with
      | (es, .error d) => (es, .error d)
      | (es, .ok c2) =>
          let r := procLines parse c2 ls
          (es ++ r.1, r.2)

/-- Split a character buffer into the complete lines before each `'\n'` and
the trailing residue, mirroring the `indexOf("\n")` / `slice` loop. -/
def splitNl : List Char → List (List Char) × List Char
  | [] => ([], [])
  | c :: cs =>
      let r := splitNl cs
      if c = '\n' then ([] :: r.1, r.2)
      else
        match r.1 with
        | [] => ([], c :: r.2)
        | l :: ls => ((c :: l) :: ls, r.2)

lemma splitNl_append (xs ys : List Char) :
    splitNl (xs ++ ys) =
      ((splitNl xs).1 ++ (splitNl ((splitNl xs).2 ++ ys)).1,
       (splitNl ((splitNl xs).2 ++ ys)).2) := by
  induction xs with
  | nil => simp [splitNl]
  | cons c cs ih =>
      by_cases hc : c = '\n'
      · subst hc
        have lhs1 : splitNl ('\n' :: (cs ++ ys)) =
            ([] :: (splitNl (cs ++ ys)).1, (splitNl (cs ++ ys)).2) := by
          simp [splitNl]
        have rhs1 : splitNl ('\n' :: cs) =
            ([] :: (splitNl cs).1, (splitNl cs).2) := by
          simp [splitNl]
        rw [List.cons_append, lhs1, ih, rhs1]
        simp
      · cases h1 : (splitNl cs).1 with
        | cons l ls =>
            have rhs1 : splitNl (c :: cs) = ((c :: l) :: ls, (splitNl cs).2) := by
              simp [splitNl, hc, h1]
            have lhs1 : splitNl (c :: (cs ++ ys)) =
                ((c :: l) :: (ls ++ (splitNl ((splitNl cs).2 ++ ys)).1),
                 (splitNl ((splitNl cs).2 ++ ys)).2) := by
              simp [splitNl, hc, ih, h1]
            rw [List.cons_append, lhs1, rhs1]
            simp
        | nil =>
            have rhs1 : splitNl (c :: cs) = ([], c :: (splitNl cs).2) := by
              simp [splitNl, hc, h1]
            have lhs1 : splitNl (c :: (cs ++ ys)) =
                splitNl (c :: ((splitNl cs).2 ++ ys)) := by
              simp only [splitNl]
              rw [ih, h1]
              simp
            rw [List.cons_append, lhs1, rhs1]
            simp

/-- The residue of `splitNl` contains no newline. -/
lemma splitNl_residue_noNl (xs : List Char) : '\n' ∉ (splitNl xs).2 := by
  induction xs with
  | nil => simp [splitNl]
  | cons c cs ih =>
      by_cases hc : c = '\n'
      · subst hc; simpa [splitNl] using ih
      · cases h1 : (splitNl cs).1 with
        | cons l ls => simpa [splitNl, hc, h1] using ih
        | nil =>
            simp only [splitNl, if_neg hc, h1]
            intro hmem
            rcases List.mem_cons.mp hmem with h | h
            · exact hc h.symm
            · exact ih h

/-- A newline-free buffer splits into no lines and itself. -/
lemma splitNl_of_noNl (xs : List Char) (h : '\n' ∉ xs) : splitNl xs = ([], xs) := by
  induction xs with
  | nil => simp [splitNl]
  | cons c cs ih =>
      have hc : ¬ c = '\n' := fun he => h (he ▸ List.mem_cons_self c cs)
      have hcs : '\n' ∉ cs := fun hm => h (List.mem_cons_of_mem c hm)
      simp [splitNl, hc, ih hcs]

/-- Read-loop state: the `buffer` residue plus the other locals. -/
structure SBuf where
  buffer : List Char
  core : SCore
deriving DecidableEq, Repr

/-- One `reader.read()` delivering `r`: append to the buffer, process every
complete line. -/
def feedRead (parse : String → Option DChunk) (st : SBuf) (r : List Char) :
    List String × Except DoneRes SBuf :=
  let pr := splitNl (st.buffer ++ r)
  match procLines parse st.core pr.1 with
  | (es, .error d) => (es, .error d)
  | (es, .ok c) => (es, .ok ⟨pr.2, c⟩)

/-- The whole read loop over a sequence of reads. -/
def feedReads (parse : String → Option DChunk) (st : SBuf) :
    List (List Char) → List String × Except DoneRes SBuf
  | [] => ([], .ok st)
  | r :: rs =>
      match feedRead parse st r with
      | (es, .error d) => (es, .error d)
      | (es, .ok st2) =>
          let r2 := feedReads parse st2 rs
          (es ++ r2.1, r2.2)

/-- The residual flush after the reader reports `done` (lines 240-257): a
leftover `data: ` line is parsed best-effort (no second trim after
`substring(6)`, no `error`-field check, no `conversation_id` handling), then
the final `onDone` fires. -/
def flushResidual (parse : String → Option DChunk) (st : SBuf) :
    List String × DoneRes :=
  let t := trimChars st.buffer
  if dataMark.isPrefixOf t then
    match parse (String.mk (t.drop 6)) with
    | none => ([], ⟨st.core.full, st.core.cid, st.core.meta⟩)
    | some c =>
        let step2 := answerStep st.core c.answer
        let meta2 := if c.event == some "message_end" then c.metadata else st.core.meta
        (step2.1, ⟨step2.2.full, st.core.cid, meta2⟩)
  else ([], ⟨st.core.full, st.core.cid, st.core.meta⟩)

/-- The read loop from an arbitrary loop state, followed by the flush and
terminal `onDone` (unless an early `onDone` already fired). -/
def streamRunFrom (parse : String → Option DChunk) (st : SBuf)
    (reads : List (List Char)) : List String × DoneRes :=
  match feedReads parse st reads with
  | (es, .error d) => (es, d)
  | (es, .ok st2) =>
      let fl := flushResidual parse st2
      (es ++ fl.1, fl.2)

/-- A transported stream: all reads from the initial state (empty buffer,
empty accumulator), then flush and terminal `onDone` (or the early `onDone`
of `[DONE]` / `message_end`).  Returns the emitted chunk sequence and the
`onDone` payload. -/
def streamRun (parse : String → Option DChunk) (reads : List (List Char)) :
    List String × DoneRes :=
  streamRunFrom parse ⟨[], ⟨"", none, none⟩⟩ reads

lemma procLines_append_error {parse : String → Option DChunk} {core : SCore}
    {ls1 : List (List Char)} {es : List String} {d : DoneRes}
    (h : procLines parse core ls1 = (es, .error d)) (ls2 : List (List Char)) :
    procLines parse core (ls1 ++ ls2) = (es, .error d) := by
  induction ls1 generalizing core es with
  | nil => simp [procLines] at h
  | cons l ls ih =>
      simp only [procLines] at h
      simp only [List.cons_append, procLines]
      cases hl : procLine parse core l with
      | mk es0 r =>
          cases r with
          | error d0 =>
              rw [hl] at h
              simp at h
              simp [h.1, h.2]
          | ok c0 =>
              rw [hl] at h
              simp only at h
              cases hr : procLines parse c0 ls with
              | mk es1 r1 =>
                  rw [hr] at h
                  simp only [Prod.mk.injEq] at h
                  cases r1 with
                  | error d1 =>
                      have h2 := h.2
                      simp only [Except.error.injEq] at h2
                      have hr2 : procLines parse c0 ls = (es1, Except.error d) := by
                        rw [hr, h2]
                      have hthis := ih hr2
                      simp [List.append_eq, hthis, ← h.1]
                  | ok c1 => simp at h

lemma procLines_append_ok {parse : String → Option DChunk} {core : SCore}
    {ls1 : List (List Char)} {es : List String} {c2 : SCore}
    (h : procLines parse core ls1 = (es, .ok c2)) (ls2 : List (List Char)) :
    procLines parse core (ls1 ++ ls2) =
      (es ++ (procLines parse c2 ls2).1, (procLines parse c2 ls2).2) := by
  induction ls1 generalizing core es with
  | nil =>
      simp only [procLines, Prod.mk.injEq, Except.ok.injEq] at h
      obtain ⟨h1, h2⟩ := h
      subst h1; subst h2
      simp [procLines]
  | cons l ls ih =>
      simp only [procLines] at h
      simp only [List.cons_append, procLines]
      cases hl : procLine parse core l with
      | mk es0 r =>
          cases r with
          | error d0 =>
              rw [hl] at h
              simp at h
          | ok c0 =>
              rw [hl] at h
              simp only at h
              cases hr : procLines parse c0 ls with
              | mk es1 r1 =>
                  rw [hr] at h
                  simp only [Prod.mk.injEq] at h
                  cases r1 with
                  | error d1 => simp at h
                  | ok c1 =>
                      have h2 := h.2
                      simp only [Except.ok.injEq] at h2
                      have hr2 : procLines parse c0 ls = (es1, Except.ok c2) := by
                        rw [hr, h2]
                      have hthis := ih hr2
                      simp [List.append_eq, hthis, ← h.1, List.append_assoc]

lemma feedRead_append_error {parse : String → Option DChunk} {st : SBuf}
    {x : List Char} {es : List String} {d : DoneRes}
    (h : feedRead parse st x = (es, .error d)) (y : List Char) :
    feedRead parse st (x ++ y) = (es, .error d) := by
  simp only [feedRead] at h ⊢
  rw [← List.append_assoc, splitNl_append (st.buffer ++ x) y]
  cases hp : procLines parse st.core (splitNl (st.buffer ++ x)).1 with
  | mk es0 r =>
      rw [hp] at h
      cases r with
      | error d0 =>
          simp only [Prod.mk.injEq, Except.error.injEq] at h
          rw [procLines_append_error (by rw [hp, h.2])]
          simp [h.1]
      | ok c0 => simp at h

lemma feedRead_append_ok {parse : String → Option DChunk} {st : SBuf}
    {x : List Char} {es : List String} {st2 : SBuf}
    (h : feedRead parse st x = (es, .ok st2)) (y : List Char) :
    feedRead parse st (x ++ y) =
      (es ++ (feedRead parse st2 y).1, (feedRead parse st2 y).2) := by
  simp only [feedRead] at h ⊢
  rw [← List.append_assoc, splitNl_append (st.buffer ++ x) y]
  cases hp : procLines parse st.core (splitNl (st.buffer ++ x)).1 with
  | mk es0 r =>
      rw [hp] at h
      cases r with
      | error d0 => simp at h
      | ok c0 =>
          simp only [Prod.mk.injEq, Except.ok.injEq] at h
          obtain ⟨h1, h2⟩ := h
          subst h2
          subst h1
          rw [procLines_append_ok hp ((splitNl ((splitNl (st.buffer ++ x)).2 ++ y)).1)]
          cases hq : procLines parse c0 ((splitNl ((splitNl (st.buffer ++ x)).2 ++ y)).1) with
          | mk es1 r1 =>
              cases r1 with
              | error d1 => simp [feedRead, hq]
              | ok c1 => simp [feedRead, hq]

lemma streamRunFrom_cons_error {parse : String → Option DChunk} {st : SBuf}
    {r : List Char} {es : List String} {d : DoneRes}
    (hfr : feedRead parse st r = (es, .error d)) (rs : List (List Char)) :
    streamRunFrom parse st (r :: rs) = (es, d) := by
  simp [streamRunFrom, feedReads, hfr]

lemma streamRunFrom_cons_ok {parse : String → Option DChunk} {st : SBuf}
    {r : List Char} {es : List String} {st2 : SBuf}
    (hfr : feedRead parse st r = (es, .ok st2)) (rs : List (List Char)) :
    streamRunFrom parse st (r :: rs) =
      (es ++ (streamRunFrom parse st2 rs).1, (streamRunFrom parse st2 rs).2) := by
  simp only [streamRunFrom, feedReads, hfr]
  cases hq : feedReads parse st2 rs with
  | mk es2 r2 =>
      cases r2 with
      | error d2 => simp [hq]
      | ok st3 => simp [hq, List.append_assoc]

lemma feedRead_ok_buffer {parse : String → Option DChunk} {st : SBuf}
    {x : List Char} {es : List String} {st2 : SBuf}
    (h : feedRead parse st x = (es, .ok st2)) : '\n' ∉ st2.buffer := by
  simp only [feedRead] at h
  cases hp : procLines parse st.core (splitNl (st.buffer ++ x)).1 with
  | mk es0 r =>
      rw [hp] at h
      cases r with
      | error d => simp at h
      | ok c =>
          simp only [Prod.mk.injEq, Except.ok.injEq] at h
          rw [← h.2]
          exact splitNl_residue_noNl _

lemma feedRead_nil_of_noNl {parse : String → Option DChunk} {st : SBuf}
    (hb : '\n' ∉ st.buffer) : feedRead parse st [] = ([], .ok st) := by
  simp [feedRead, splitNl_of_noNl st.buffer hb, procLines]

/-- Read-boundary invariance: delivering the stream in any sequence of reads
produces the same emissions and the same terminal `onDone` payload as
delivering it in one read. -/
lemma streamRunFrom_join (parse : String → Option DChunk)
    (reads : List (List Char)) :
    ∀ st : SBuf, '\n' ∉ st.buffer →
      streamRunFrom parse st reads = streamRunFrom parse st [reads.flatten] := by
  induction reads with
  | nil =>
      intro st hb
      have h0 : feedRead parse st [] = ([], .ok st) := feedRead_nil_of_noNl hb
      have : ([] : List (List Char)).flatten = [] := rfl
      rw [this, streamRunFrom_cons_ok h0 []]
      simp
  | cons r rs ih =>
      intro st hb
      have hjoin : (r :: rs).flatten = r ++ rs.flatten := rfl
      rw [hjoin]
      cases hfr : feedRead parse st r with
      | mk es x =>
          cases x with
          | error d =>
              rw [streamRunFrom_cons_error hfr rs,
                streamRunFrom_cons_error (feedRead_append_error hfr rs.flatten) []]
          | ok st2 =>
              have hb2 : '\n' ∉ st2.buffer := feedRead_ok_buffer hfr
              rw [streamRunFrom_cons_ok hfr rs, ih st2 hb2]
              cases hfr2 : feedRead parse st2 rs.flatten with
              | mk es2 x2 =>
                  cases x2 with
                  | error d2 =>
                      have hcomp : feedRead parse st (r ++ rs.flatten) = (es ++ es2, .error d2) := by
                        rw [feedRead_append_ok hfr rs.flatten, hfr2]
                      rw [streamRunFrom_cons_error hfr2 [],
                        streamRunFrom_cons_error hcomp []]
                  | ok st3 =>
                      have hcomp : feedRead parse st (r ++ rs.flatten) = (es ++ es2, .ok st3) := by
                        rw [feedRead_append_ok hfr rs.flatten, hfr2]
                      rw [streamRunFrom_cons_ok hfr2 [],
                        streamRunFrom_cons_ok hcomp []]
                      simp [List.append_assoc]

lemma catStrs_append (xs ys : List String) :
    catStrs (xs ++ ys) = catStrs xs ++ catStrs ys := by
  induction xs with
  | nil => simp [catStrs, String.empty_append]
  | cons a as ih => simp [catStrs, ih, String.append_assoc]

lemma cidUpdate_full (core : SCore) (cido : Option String) :
    (cidUpdate core cido).full = core.full := by
  unfold cidUpdate
  cases cido with
  | none => rfl
  | some cid => by_cases hc : cid ≠ "" <;> simp [hc]

lemma answerStep_full (core1 : SCore) (ao : Option String) :
    (answerStep core1 ao).2.full = core1.full ++ catStrs (answerStep core1 ao).1 := by
  unfold answerStep
  cases ao with
  | none => simp [catStrs, String.append_empty]
  | some a => by_cases ha : a ≠ "" <;> simp [ha, catStrs, String.append_empty]

/-- Processing one line extends `full` by exactly the emitted text, and an
early done carries the extended `full`. -/
lemma procLine_full {parse : String → Option DChunk} {core : SCore}
    {l : List Char} {es : List String} {r : Except DoneRes SCore}
    (h : procLine parse core l = (es, r)) :
    (∀ c2, r = .ok c2 → c2.full = core.full ++ catStrs es) ∧
    (∀ d, r = .error d → d.text = core.full ++ catStrs es) := by
  simp only [procLine] at h
  split at h
  · cases h
    refine ⟨fun c2 hc => ?_, fun d hd => ?_⟩
    · cases hc; simp [catStrs, String.append_empty]
    · cases hd
  · cases hp : linePayload (trimChars l) with
    | none =>
        rw [hp] at h
        simp only at h
        cases h
        refine ⟨fun c2 hc => ?_, fun d hd => ?_⟩
        · cases hc; simp [catStrs, String.append_empty]
        · cases hd
    | some p =>
        rw [hp] at h
        simp only at h
        split at h
        · cases h
          refine ⟨fun c2 hc => ?_, fun d hd => ?_⟩
          · cases hc
          · cases hd; simp [catStrs, String.append_empty]
        · cases hq : parse (String.mk p) with
          | none =>
              rw [hq] at h
              simp only at h
              cases h
              refine ⟨fun c2 hc => ?_, fun d hd => ?_⟩
              · cases hc; simp [catStrs, String.append_empty]
              · cases hd
          | some c =>
              rw [hq] at h
              simp only at h
              split at h
              · cases h
                refine ⟨fun c2 hc => ?_, fun d hd => ?_⟩
                · cases hc; simp [catStrs, String.append_empty]
                · cases hd
              · split at h
                · cases h
                  refine ⟨fun c2 hc => ?_, fun d hd => ?_⟩
                  · cases hc
                  · cases hd
                    simp [answerStep_full, cidUpdate_full]
                · cases h
                  refine ⟨fun c2 hc => ?_, fun d hd => ?_⟩
                  · cases hc
                    simp [answerStep_full, cidUpdate_full]
                  · cases hd

lemma procLines_full {parse : String → Option DChunk} {core : SCore}
    {ls : List (List Char)} {es : List String} {r : Except DoneRes SCore}
    (h : procLines parse core ls = (es, r)) :
    (∀ c2, r = .ok c2 → c2.full = core.full ++ catStrs es) ∧
    (∀ d, r = .error d → d.text = core.full ++ catStrs es) := by
  induction ls generalizing core es r with
  | nil =>
      simp only [procLines] at h
      cases h
      refine ⟨fun c2 hc => ?_, fun d hd => ?_⟩
      · cases hc; simp [catStrs, String.append_empty]
      · cases hd
  | cons l ls ih =>
      simp only [procLines] at h
      cases hl : procLine parse core l with
      | mk es0 r0 =>
          rw [hl] at h
          cases r0 with
          | error d0 =>
              simp only at h
              cases h
              refine ⟨fun c2 hc => ?_, fun d hd => ?_⟩
              · cases hc
              · cases hd
                exact (procLine_full hl).2 _ rfl
          | ok c0 =>
              simp only at h
              cases hr : procLines parse c0 ls with
              | mk es1 r1 =>
                  rw [hr] at h
                  cases h
                  have hc0 : c0.full = core.full ++ catStrs es0 :=
                    (procLine_full hl).1 _ rfl
                  have hih := ih hr
                  refine ⟨fun c2 hc => ?_, fun d hd => ?_⟩
                  · have := hih.1 c2 hc
                    rw [this, hc0, catStrs_append, String.append_assoc]
                  · have := hih.2 d hd
                    rw [this, hc0, catStrs_append, String.append_assoc]

lemma feedRead_full {parse : String → Option DChunk} {st : SBuf}
    {x : List Char} {es : List String} {r : Except DoneRes SBuf}
    (h : feedRead parse st x = (es, r)) :
    (∀ st2, r = .ok st2 → st2.core.full = st.core.full ++ catStrs es) ∧
    (∀ d, r = .error d → d.text = st.core.full ++ catStrs es) := by
  simp only [feedRead] at h
  cases hp : procLines parse st.core (splitNl (st.buffer ++ x)).1 with
  | mk es0 r0 =>
      rw [hp] at h
      cases r0 with
      | error d0 =>
          simp only at h
          cases h
          refine ⟨fun st2 hc => ?_, fun d hd => ?_⟩
          · cases hc
          · cases hd; exact (procLines_full hp).2 _ rfl
      | ok c0 =>
          simp only at h
          cases h
          refine ⟨fun st2 hc => ?_, fun d hd => ?_⟩
          · cases hc; exact (procLines_full hp).1 _ rfl
          · cases hd

lemma feedReads_full {parse : String → Option DChunk} {st : SBuf}
    {reads : List (List Char)} {es : List String} {r : Except DoneRes SBuf}
    (h : feedReads parse st reads = (es, r)) :
    (∀ st2, r = .ok st2 → st2.core.full = st.core.full ++ catStrs es) ∧
    (∀ d, r = .error d → d.text = st.core.full ++ catStrs es) := by
  induction reads generalizing st es r with
  | nil =>
      simp only [feedReads] at h
      cases h
      refine ⟨fun st2 hc => ?_, fun d hd => ?_⟩
      · cases hc; simp [catStrs, String.append_empty]
      · cases hd
  | cons x xs ih =>
      simp only [feedReads] at h
      cases hl : feedRead parse st x with
      | mk es0 r0 =>
          rw [hl] at h
          cases r0 with
          | error d0 =>
              simp only at h
              cases h
              refine ⟨fun st2 hc => ?_, fun d hd => ?_⟩
              · cases hc
              · cases hd
                exact (feedRead_full hl).2 _ rfl
          | ok stm =>
              simp only at h
              cases hr : feedReads parse stm xs with
              | mk es1 r1 =>
                  rw [hr] at h
                  cases h
                  have hc0 : stm.core.full = st.core.full ++ catStrs es0 :=
                    (feedRead_full hl).1 _ rfl
                  have hih := ih hr
                  refine ⟨fun st2 hc => ?_, fun d hd => ?_⟩
                  · have := hih.1 st2 hc
                    rw [this, hc0, catStrs_append, String.append_assoc]
                  · have := hih.2 d hd
                    rw [this, hc0, catStrs_append, String.append_assoc]

lemma flushResidual_text (parse : String → Option DChunk) (st : SBuf) :
    (flushResidual parse st).2.text =
      st.core.full ++ catStrs (flushResidual parse st).1 := by
  simp only [flushResidual]
  split
  · cases hq : parse (String.mk ((trimChars st.buffer).drop 6)) <;>
      simp [hq, catStrs, String.append_empty, answerStep_full]
  · simp [catStrs, String.append_empty]

/-- In every run, the text handed to the terminal `onDone` is exactly the
concatenation of the emitted chunks (on top of the starting accumulator). -/
lemma streamRunFrom_text (parse : String → Option DChunk) (st : SBuf)
    (reads : List (List Char)) :
    (streamRunFrom parse st reads).2.text =
      st.core.full ++ catStrs (streamRunFrom parse st reads).1 := by
  simp only [streamRunFrom]
  cases hf : feedReads parse st reads with
  | mk es r =>
      cases r with
      | error d => simpa using (feedReads_full hf).2 d rfl
      | ok st2 =>
          have h1 := (feedReads_full hf).1 st2 rfl
          simp only
          rw [flushResidual_text parse st2, h1, catStrs_append, String.append_assoc]

/-! ## Conversation-turn handling (`handleUserSpeech`, lines 650-731)

The ephemeral-user-message finalization and the `speak(full)` call are out of
scope here; the model covers the assistant placeholder, the conversation
list, the status string, the continuity token, and the session-active flag
(which no turn-level handler touches). -/

/-- The assistant placeholder appended before streaming (lines 658-669). -/
def placeholderMsg (aid ts : String) : Msg :=
  ⟨aid, "assistant", "", ts, false, some .processing, none⟩

/-- Repeated `onChunk` handling (lines 681-689): `accumulated += chunk` and a
whole-list map replacing the placeholder's text by the accumulator. -/
def applyChunks (aid : String) : List Msg → String → List String → List Msg × String
  | conv, acc, [] => (conv, acc)
  | conv, acc, c :: cs =>
      let acc2 := acc ++ c
      applyChunks aid
        (conv.map fun m => if m.id == aid then { m with text := acc2 } else m)
        acc2 cs

/-- The per-message rewrite of the `onDone` handler. -/
def doneUpd (d : DoneRes) (m : Msg) : Msg :=
  { m with text := d.text, isFinal := true, status := some .final, metadata := d.meta }

/-- The per-message rewrite of the `onError` handler: error text and
`isFinal := true` — the `status` field is not touched. -/
def errUpd (emsg : String) (m : Msg) : Msg :=
  { m with text := "(Lỗi: " ++ emsg ++ ")", isFinal := true }

/-- The `onDone` handler's conversation update (lines 690-697). -/
def onDoneUpdate (aid : String) (d : DoneRes) (conv : List Msg) : List Msg :=
  conv.map fun m => if m.id == aid then doneUpd d m else m

/-- The `onError` handler's conversation update (lines 718-725). -/
def onErrorUpdate (aid : String) (emsg : String) (conv : List Msg) : List Msg :=
  conv.map fun m => if m.id == aid then errUpd emsg m else m

/-- Turn-level state: the transcript, status string, continuity token and the
session flag. -/
structure TurnState where
  conversation : List Msg
  statusText : String
  conversationId : Option String
  sessionActive : Bool
deriving DecidableEq, Repr

/-- How the transport behaves during one turn. -/
inductive AdapterOutcome where
  /-- `fetch` rejected, `!response.ok`, or a missing body: the outer catch
  fires before any read. -/
  | httpFail (emsg : String)
  /-- Some reads succeeded, then `reader.read()` threw: the outer catch fires
  (unless an early done already returned). -/
  | readsThenFail (reads : List (List Char)) (emsg : String)
  /-- The reader delivered all reads and reported `done`. -/
  | readsComplete (reads : List (List Char))

/-- One conversation turn of `handleUserSpeech` after the placeholder with id
`aid` has been appended: run `streamDify` under the given transport outcome
and apply the matching handler updates. -/
def runTurn (parse : String → Option DChunk) (o : AdapterOutcome)
    (aid ts : String) (s : TurnState) : TurnState :=
  let conv0 := s.conversation ++ [placeholderMsg aid ts]
  match o with
  | .httpFail e =>
      { s with conversation := onErrorUpdate aid e conv0, statusText := "Lỗi Dify" }
  | .readsThenFail reads e =>
      match feedReads parse ⟨[], ⟨"", none, none⟩⟩ reads with
      | (es, .error d) =>
          -- an early done returned from streamDify before the failing read
          let conv1 := (applyChunks aid conv0 "" es).1
          { s with conversation := onDoneUpdate aid d conv1,
                   statusText := "Hoàn thành",
                   conversationId := match d.cid with
                     | some cid => if cid ≠ "" then some cid else s.conversationId
                     | none => s.conversationId }
      | (es, .ok _) =>
          let conv1 := (applyChunks aid conv0 "" es).1
          { s with conversation := onErrorUpdate aid e conv1, statusText := "Lỗi Dify" }
  | .readsComplete reads =>
      let run := streamRun parse reads
      let conv1 := (applyChunks aid conv0 "" run.1).1
      { s with conversation := onDoneUpdate aid run.2 conv1,
               statusText := "Hoàn thành",
               conversationId := match run.2.cid with
                 | some cid => if cid ≠ "" then some cid else s.conversationId
                 | none => s.conversationId }

lemma find?_map_upd (aid : String) (g : Msg → Msg)
    (hg : ∀ m, (g m).id = m.id) (conv : List Msg) :
    ((conv.map fun m => if m.id == aid then g m else m).find?
        (fun m => m.id == aid)) =
      (conv.find? (fun m => m.id == aid)).map g := by
  induction conv with
  | nil => rfl
  | cons m ms ih =>
      by_cases h : (m.id == aid) = true
      · simp only [List.map_cons, List.find?, h]
        simp [hg m, h]
      · have hb : (m.id == aid) = false := by simpa using h
        simp only [List.map_cons, List.find?, hb, ih]
        simp [hb]

lemma find?_append_fresh {aid : String} {prev : List Msg}
    (hfresh : ∀ m ∈ prev, (m.id == aid) = false) (suffix : List Msg) :
    ((prev ++ suffix).find? (fun m => m.id == aid)) =
      suffix.find? (fun m => m.id == aid) := by
  induction prev with
  | nil => rfl
  | cons m ms ih =>
      have hm := hfresh m (List.mem_cons_self m ms)
      have hms : ∀ x ∈ ms, (x.id == aid) = false := fun x hx =>
        hfresh x (List.mem_cons_of_mem m hx)
      simp [List.find?, hm, ih hms]

/-- After applying a chunk list, the message with id `aid` (unique by
freshness of the placeholder) carries the accumulator extended by the
concatenation of the chunks; other runs of `find?` bookkeeping included. -/
lemma applyChunks_find (aid : String) (conv : List Msg) (acc : String)
    (es : List String) :
    ((applyChunks aid conv acc es).1.find? (fun m => m.id == aid)) =
      (conv.find? (fun m => m.id == aid)).map
        (fun m => if es.isEmpty then m else { m with text := acc ++ catStrs es }) := by
  induction es generalizing conv acc with
  | nil =>
      cases h : conv.find? (fun m => m.id == aid) <;> simp [applyChunks, h]
  | cons c cs ih =>
      simp only [applyChunks]
      rw [ih]
      rw [find?_map_upd aid (fun m => { m with text := acc ++ c }) (fun m => rfl) conv]
      cases h : conv.find? (fun m => m.id == aid) with
      | none => simp
      | some m =>
          by_cases hcs : cs.isEmpty
          · have hnil : cs = [] := by
              cases cs with
              | nil => rfl
              | cons a as => simp at hcs
            subst hnil
            simp [catStrs, String.append_empty]
          · simp [hcs, catStrs, String.append_assoc]

lemma turn_find_placeholder {aid ts : String} {prev : List Msg}
    (hfresh : ∀ m ∈ prev, (m.id == aid) = false) :
    ((prev ++ [placeholderMsg aid ts]).find? (fun m => m.id == aid)) =
      some (placeholderMsg aid ts) := by
  rw [find?_append_fresh hfresh]
  simp [List.find?, placeholderMsg]

/-- claim C3 — confirmed.  For every `JSON.parse` behaviour and every split
of the SSE input into reads: (1) the emissions and terminal payload are
independent of the read boundaries; (2) the terminal `onDone` text is the
concatenation of the emitted chunks; (3) after the first `k` chunks the
assistant placeholder's text is exactly the concatenation of those `k`
chunks (prefix-extending); (4) the completed turn finalizes the placeholder
with the full answer text. -/
theorem C3_stream_prefix_monotone (parse : String → Option DChunk)
    (reads : List (List Char)) (aid ts : String) (s : TurnState)
    (hfresh : ∀ m ∈ s.conversation, (m.id == aid) = false) :
    streamRun parse reads = streamRun parse [reads.flatten] ∧
    (streamRun parse reads).2.text = catStrs (streamRun parse reads).1 ∧
    (∀ k : ℕ,
      (((applyChunks aid (s.conversation ++ [placeholderMsg aid ts]) ""
          ((streamRun parse reads).1.take k)).1).find? (fun m => m.id == aid)) =
        some { placeholderMsg aid ts with
               text := catStrs ((streamRun parse reads).1.take k) }) ∧
    ((runTurn parse (.readsComplete reads) aid ts s).conversation.find?
        (fun m => m.id == aid)) =
      some { placeholderMsg aid ts with
             text := (streamRun parse reads).2.text,
             isFinal := true, status := some .final,
             metadata := (streamRun parse reads).2.meta } := by
  refine ⟨?_, ?_, ?_, ?_⟩
  · exact streamRunFrom_join parse reads ⟨[], ⟨"", none, none⟩⟩ (by simp)
  · simpa [streamRun, String.empty_append] using
      streamRunFrom_text parse ⟨[], ⟨"", none, none⟩⟩ reads
  · intro k
    rw [applyChunks_find, turn_find_placeholder hfresh]
    by_cases hk : ((streamRun parse reads).1.take k).isEmpty
    · have hnil : (streamRun parse reads).1.take k = [] := by
        cases h : (streamRun parse reads).1.take k with
        | nil => rfl
        | cons a as => rw [h] at hk; simp at hk
      simp [hnil, catStrs, placeholderMsg]
    · simp [hk, String.empty_append]
  · simp only [runTurn, onDoneUpdate]
    rw [find?_map_upd aid (doneUpd (streamRun parse reads).2) (fun m => rfl),
      applyChunks_find, turn_find_placeholder hfresh]
    by_cases hk : (streamRun parse reads).1.isEmpty <;> simp [hk, doneUpd]

/-- The parse behaviour used by the C3 witness: three concrete records. -/
def parseC3 : String → Option DChunk := fun s =>
  if s = "A1" then some ⟨none, some "Chào", none, none, none⟩
  else if s = "A2" then some ⟨none, some " bạn!", some "cid1", none, none⟩
  else if s = "E" then some ⟨some "message_end", none, none, none, some "meta1"⟩
  else none

/-- Two reads that split the second `data:` line across the read boundary. -/
def readsC3 : List (List Char) :=
  ["data: A1\nda".toList, "ta: A2\ndata: E\n".toList]

/-- An empty active turn state. -/
def turnS0 : TurnState := ⟨[], "", none, true⟩

/-- Witness for `C3_stream_prefix_monotone`: the freshness hypothesis holds
for the empty transcript and the theorem applies. -/
theorem C3_stream_prefix_monotone_witness :
    (∀ m ∈ turnS0.conversation, (m.id == "a1") = false) ∧
    (streamRun parseC3 readsC3 = streamRun parseC3 [readsC3.flatten] ∧
     (streamRun parseC3 readsC3).2.text = catStrs (streamRun parseC3 readsC3).1 ∧
     (∀ k : ℕ,
       (((applyChunks "a1" (turnS0.conversation ++ [placeholderMsg "a1" "t0"]) ""
           ((streamRun parseC3 readsC3).1.take k)).1).find? (fun m => m.id == "a1")) =
         some { placeholderMsg "a1" "t0" with
                text := catStrs ((streamRun parseC3 readsC3).1.take k) }) ∧
     ((runTurn parseC3 (.readsComplete readsC3) "a1" "t0" turnS0).conversation.find?
         (fun m => m.id == "a1")) =
       some { placeholderMsg "a1" "t0" with
              text := (streamRun parseC3 readsC3).2.text,
              isFinal := true, status := some .final,
              metadata := (streamRun parseC3 readsC3).2.meta }) :=
  ⟨by simp [turnS0],
   C3_stream_prefix_monotone parseC3 readsC3 "a1" "t0" turnS0 (by simp [turnS0])⟩

/-- claim C4 — amended.  Whatever the adapter outcome, the turn never leaves
the placeholder non-final and never touches the session flag: the assistant
message with the placeholder's id always ends with `isFinal = true`, and a
request/read failure reaching `onError` finalizes it with the visible error
text `"(Lỗi: <message>)"`. -/
theorem C4_placeholder_always_finalized (parse : String → Option DChunk)
    (o : AdapterOutcome) (aid ts : String) (s : TurnState)
    (hfresh : ∀ m ∈ s.conversation, (m.id == aid) = false) :
    (runTurn parse o aid ts s).sessionActive = s.sessionActive ∧
    ((runTurn parse o aid ts s).conversation.find? (fun m2 => m2.id == aid)).isSome = true ∧
    (∀ m, (runTurn parse o aid ts s).conversation.find? (fun m2 => m2.id == aid) =
        some m → m.isFinal = true) ∧
    (∀ e, o = .httpFail e →
      (runTurn parse o aid ts s).conversation.find? (fun m2 => m2.id == aid) =
        some { placeholderMsg aid ts with
               text := "(Lỗi: " ++ e ++ ")", isFinal := true }) := by
  refine ⟨?_, ?_⟩
  · cases o with
    | httpFail e => rfl
    | readsThenFail reads e =>
        simp only [runTurn]
        cases hf : feedReads parse ⟨[], ⟨"", none, none⟩⟩ reads with
        | mk es r => cases r <;> simp [hf]
    | readsComplete reads => rfl
  · cases o with
    | httpFail e =>
        simp only [runTurn, onErrorUpdate]
        rw [find?_map_upd aid (errUpd e) (fun m => rfl),
          turn_find_placeholder hfresh]
        refine ⟨rfl, ?_, ?_⟩
        · intro m hm
          cases hm
          rfl
        · intro e2 he2
          injection he2 with h
          subst h
          rfl
    | readsThenFail reads e =>
        simp only [runTurn]
        cases hf : feedReads parse ⟨[], ⟨"", none, none⟩⟩ reads with
        | mk es r =>
            cases r with
            | error d =>
                simp only [onDoneUpdate]
                rw [find?_map_upd aid (doneUpd d) (fun m => rfl),
                  applyChunks_find, turn_find_placeholder hfresh]
                refine ⟨rfl, ?_, ?_⟩
                · intro m hm
                  cases hm
                  rfl
                · intro e2 he2
                  cases he2
            | ok st2 =>
                simp only [onErrorUpdate]
                rw [find?_map_upd aid (errUpd e) (fun m => rfl),
                  applyChunks_find, turn_find_placeholder hfresh]
                refine ⟨rfl, ?_, ?_⟩
                · intro m hm
                  cases hm
                  rfl
                · intro e2 he2
                  cases he2
    | readsComplete reads =>
        simp only [runTurn, onDoneUpdate]
        rw [find?_map_upd aid (doneUpd (streamRun parse reads).2) (fun m => rfl),
          applyChunks_find, turn_find_placeholder hfresh]
        refine ⟨rfl, ?_, ?_⟩
        · intro m hm
          cases hm
          rfl
        · intro e2 he2
          cases he2

/-- Witness for `C4_placeholder_always_finalized` at a concrete failing
request. -/
theorem C4_placeholder_always_finalized_witness :
    (∀ m ∈ turnS0.conversation, (m.id == "a1") = false) ∧
    ((runTurn parseC3 (.httpFail "network down") "a1" "t0" turnS0).sessionActive =
        turnS0.sessionActive ∧
     ((runTurn parseC3 (.httpFail "network down") "a1" "t0"
          turnS0).conversation.find? (fun m2 => m2.id == "a1")).isSome = true ∧
     (∀ m, (runTurn parseC3 (.httpFail "network down") "a1" "t0"
          turnS0).conversation.find? (fun m2 => m2.id == "a1") = some m →
        m.isFinal = true) ∧
     (∀ e, AdapterOutcome.httpFail "network down" = .httpFail e →
       (runTurn parseC3 (.httpFail "network down") "a1" "t0"
           turnS0).conversation.find? (fun m2 => m2.id == "a1") =
         some { placeholderMsg "a1" "t0" with
                text := "(Lỗi: " ++ e ++ ")", isFinal := true })) :=
  ⟨by simp [turnS0],
   C4_placeholder_always_finalized parseC3 (.httpFail "network down") "a1" "t0"
     turnS0 (by simp [turnS0])⟩

/-- The parse behaviour of an explicit in-stream error payload. -/
def parseC4 : String → Option DChunk := fun s =>
  if s = "ERR" then some ⟨none, none, none, some "boom", none⟩ else none

/-- One read carrying only the error record. -/
def readsC4 : List (List Char) := ["data: ERR\n".toList]

/-- claim C4 — counterexample.  An explicit in-stream error payload
(`data: {"error":{"message":"boom"}}`, whose parse yields a record with a
set `error` field) is thrown inside the per-record `try` and caught by the
same `catch` that handles malformed records: it is merely logged.  The
stream then ends and the normal completion path finalizes the placeholder
with the accumulated text — here the empty string — so the message reaches
its final state carrying no visible error or fallback text, contradicting
the claim. -/
theorem C4_error_payload_counterexample :
    (runTurn parseC4 (.readsComplete readsC4) "a1" "t0" ⟨[], "", none, true⟩).conversation =
      [⟨"a1", "assistant", "", "t0", true, some .final, none⟩] ∧
    (runTurn parseC4 (.readsComplete readsC4) "a1" "t0" ⟨[], "", none, true⟩).statusText =
      "Hoàn thành" ∧
    (runTurn parseC4 (.readsComplete readsC4) "a1" "t0" ⟨[], "", none, true⟩).sessionActive =
      true := by
  decide

/-! ## Visual speech detector (`use-visual-speech.ts`, claims C6 and C10)

`handleResults` (lines 85-187) is embedded as a per-frame step function.  A
frame carries the landmark-derived measurements as rationals: the vertical
lip distance, the mouth-corner distance (before the `|| 1` guard), the eye
distance when the eye landmarks exist, and the mouth-centre coordinates.
The only square root in the source, `Math.hypot` inside the motion gate, is
rendered exactly on squared distances: for a positive normaliser `n`,
`hypot(dx,dy)/n > 0.035  ↔  (dx²+dy²)·40000 > 49·n²`. -/

structure VisParams where
  thresholdMult : ℚ
  releaseMult : ℚ
  minFramesSpeaking : ℕ
  minFramesSilent : ℕ
  warmupFrames : ℕ
deriving DecidableEq, Repr

/-- The hook's option defaults (`thresholdMultiplier = 1.6`,
`releaseMultiplier = 1.3`, `minFramesSpeaking = 3`, `minFramesSilent = 5`,
`warmupFrames = 25`). -/
def visDefaults : VisParams := ⟨8/5, 13/10, 3, 5, 25⟩

structure VisFrame where
  vertical : ℚ
  mouthW : ℚ
  eyeW : Option ℚ
  cx : ℚ
  cy : ℚ
deriving DecidableEq, Repr

/-- The detector's mutable refs. -/
structure VisState where
  baselineR : Option ℚ
  baselineMouth : Option ℚ
  baselineEye : Option ℚ
  warmupBuf : List ℚ
  warmupMouth : List ℚ
  warmupEye : List ℚ
  speaking : Bool
  consecSpeaking : ℕ
  consecSilent : ℕ
  smoothR : ℚ
  prevCenter : Option (ℚ × ℚ)
deriving DecidableEq, Repr

/-- Initial refs: baseline null, empty warm-up buffers, not speaking. -/
def visInit : VisState := ⟨none, none, none, [], [], [], false, 0, 0, 0, none⟩

/-- `arr.reduce((a,b) => a+b, 0) / arr.length`. -/
def avgQ (l : List ℚ) : ℚ := (l.foldl (· + ·) 0) / (l.length : ℚ)

/-- One processed frame of `handleResults` (lines 85-187). -/
def visStep (p : VisParams) (s : VisState) (f : VisFrame) : VisState :=
  -- const mouthWidth = dist(left, right) || 1
  let mouthWidth := if f.mouthW = 0 then 1 else f.mouthW
  -- const eyeWidth = eyes present ? dist(eyes) : mouthWidth
  let eyeWidth := f.eyeW.getD mouthWidth
  let rawR := f.vertical / mouthWidth
  -- const alpha = 0.65; smoothing keeps the first raw value as-is
  let alpha : ℚ := 65/100
  let ratioNow := if s.smoothR = 0 then rawR else alpha * rawR + (1 - alpha) * s.smoothR
  let s1 := { s with smoothR := ratioNow }
  match s.baselineR with
  | none =>
      -- warm-up: push samples, lock the baseline at warmupFrames
      let wb := s1.warmupBuf ++ [rawR]
      let wm := s1.warmupMouth ++ [mouthWidth]
      let we := s1.warmupEye ++ [eyeWidth]
      if wb.length ≥ p.warmupFrames then
        { s1 with warmupBuf := wb, warmupMouth := wm, warmupEye := we,
                  baselineR := some (avgQ wb), baselineMouth := some (avgQ wm),
                  baselineEye := some (avgQ we) }
      else
        { s1 with warmupBuf := wb, warmupMouth := wm, warmupEye := we }
  | some b0 =>
      -- drift baseline and width references only while not speaking (ema 0.02)
      let ema : ℚ := 2/100
      let base := if s.speaking then b0 else (1 - ema) * b0 + ema * rawR
      let bm := if s.speaking then s.baselineMouth
                else s.baselineMouth.map (fun m => (1 - ema) * m + ema * mouthWidth)
      let be := if s.speaking then s.baselineEye
                else s.baselineEye.map (fun m => (1 - ema) * m + ema * eyeWidth)
      let speakThr := base * p.thresholdMult
      let releaseThr := base * p.releaseMult
      -- scale gating (`widthFactor < 0.85` tightens up to +10%)
      let mwF := match bm with
        | some m => if m = 0 then 1 else mouthWidth / m
        | none => 1
      let ewF := match be with
        | some m => if m = 0 then 1 else eyeWidth / m
        | none => 1
      let widthFactor := min mwF ewF
      let adjThr := if widthFactor < 85/100 then
          speakThr * (1 + min (1/10) ((85/100 - widthFactor) * (1/2)))
        else speakThr
      -- motion gating on the squared mouth-centre displacement
      let movedSq := match s.prevCenter with
        | some pc => (f.cx - pc.1) * (f.cx - pc.1) + (f.cy - pc.2) * (f.cy - pc.2)
        | none => 0
      let motionNorm := if eyeWidth = 0 then 1 else eyeWidth
      let motionHigh := decide (movedSq * 40000 > 49 * (motionNorm * motionNorm))
      let gate := if motionHigh then adjThr * (105/100) else adjThr
      let cand := decide (ratioNow > gate) && decide (ratioNow - base > 15/1000)
      let s2 := { s1 with
        baselineR := some base, baselineMouth := bm,
        baselineEye := be, prevCenter := some (f.cx, f.cy) }
      if cand then
        let cs := s2.consecSpeaking + 1
        let s3 := { s2 with consecSpeaking := cs, consecSilent := 0 }
        if ¬ s3.speaking ∧ cs ≥ p.minFramesSpeaking then { s3 with speaking := true }
        else s3
      else
        let cl := s2.consecSilent + 1
        let s3 := { s2 with consecSilent := cl, consecSpeaking := 0 }
        if s3.speaking ∧ cl ≥ p.minFramesSilent ∧ ratioNow < releaseThr then
          { s3 with speaking := false }
        else s3

/-- A sequence of processed frames. -/
def visRun (p : VisParams) (s : VisState) (fs : List VisFrame) : VisState :=
  fs.foldl (visStep p) s

lemma visRun_cons (p : VisParams) (s : VisState) (f : VisFrame)
    (fs : List VisFrame) : visRun p s (f :: fs) = visRun p (visStep p s f) fs := rfl

lemma visStep_speaking_of_baseline_none (p : VisParams) (s : VisState)
    (f : VisFrame) (h : s.baselineR = none) :
    (visStep p s f).speaking = s.speaking := by
  simp only [visStep, h, apply_ite VisState.speaking, ite_self]

lemma visStep_baseline_none_inv (p : VisParams) (s : VisState) (f : VisFrame)
    (h2 : (visStep p s f).baselineR = none) : s.baselineR = none := by
  cases hb : s.baselineR with
  | none => rfl
  | some b =>
      simp only [visStep, hb, apply_ite VisState.baselineR, ite_self] at h2
      exact Option.noConfusion h2

lemma visRun_baseline_none_inv (p : VisParams) (s : VisState)
    (fs : List VisFrame) (h : (visRun p s fs).baselineR = none) :
    s.baselineR = none := by
  induction fs generalizing s with
  | nil => exact h
  | cons f fs2 ih =>
      rw [visRun_cons] at h
      exact visStep_baseline_none_inv p s f (ih (visStep p s f) h)

/-- claim C10 — confirmed.  As long as the baseline is still unlocked
(`baselineRef.current === null`), the detector has never reported speaking:
every warm-up frame returns before any threshold comparison, so
`speaking = false` in every run whose final baseline is still `null`. -/
theorem C10_no_speaking_before_baseline (p : VisParams) (fs : List VisFrame)
    (h : (visRun p visInit fs).baselineR = none) :
    (visRun p visInit fs).speaking = false := by
  have hgen : ∀ (gs : List VisFrame) (s : VisState),
      s.baselineR = none → s.speaking = false →
      (visRun p s gs).baselineR = none →
      (visRun p s gs).speaking = false := by
    intro gs
    induction gs with
    | nil => intro s _ h2 _; exact h2
    | cons f fs2 ih =>
        intro s h1 h2 hnone
        rw [visRun_cons] at hnone ⊢
        have hb : (visStep p s f).baselineR = none :=
          visRun_baseline_none_inv p (visStep p s f) fs2 hnone
        exact ih (visStep p s f) hb
          (by rw [visStep_speaking_of_baseline_none p s f h1]; exact h2) hnone
  exact hgen fs visInit rfl rfl h

/-- Witness for `C10_no_speaking_before_baseline`: after one warm-up frame
(default parameters need 25) the baseline is still unlocked and the
detector does not report speaking. -/
theorem C10_no_speaking_before_baseline_witness :
    (visRun visDefaults visInit [⟨1, 10, some 10, 0, 0⟩]).baselineR = none ∧
    (visRun visDefaults visInit [⟨1, 10, some 10, 0, 0⟩]).speaking = false :=
  ⟨rfl, C10_no_speaking_before_baseline visDefaults [⟨1, 10, some 10, 0, 0⟩] rfl⟩

/-- The smoothed ratio computed for a frame (lines 96-102), exposed for
specification statements. -/
def smoothedRatio (s : VisState) (f : VisFrame) : ℚ :=
  let mouthWidth := if f.mouthW = 0 then 1 else f.mouthW
  let rawR := f.vertical / mouthWidth
  if s.smoothR = 0 then rawR else (65/100) * rawR + (1 - 65/100) * s.smoothR

lemma visStep_smoothR (p : VisParams) (s : VisState) (f : VisFrame) :
    (visStep p s f).smoothR = smoothedRatio s f := by
  cases hb : s.baselineR with
  | none =>
      simp only [visStep, hb, smoothedRatio, apply_ite VisState.smoothR, ite_self]
  | some b =>
      simp only [visStep, hb, smoothedRatio, apply_ite VisState.smoothR, ite_self]

/-- claim C6 — amended, the hysteresis actually implemented.  With the
baseline locked at `b` and `speaking = true` (so the baseline and the
thresholds are frozen), a frame can flip `speaking` to `false` only when at
least `minFramesSilent` consecutive non-candidate frames have accumulated
(`consecSilent + 1 ≥ minFramesSilent`) AND the current frame's smoothed
ratio is below `releaseThreshold = b·releaseMultiplier`; in particular with
`minFramesSilent ≥ 2` a single frame (`consecSilent = 0`) can never flip
speaking off.  Only the transition frame must be below the release
threshold — not the whole silent run (see the counterexample). -/
theorem C6_speak_off_requires_debounce_and_release (p : VisParams)
    (s : VisState) (f : VisFrame) (b : ℚ)
    (hb : s.baselineR = some b) (hs : s.speaking = true) :
    ((visStep p s f).speaking = false →
      p.minFramesSilent ≤ s.consecSilent + 1 ∧
      (visStep p s f).smoothR < b * p.releaseMult) ∧
    (s.consecSilent = 0 → 2 ≤ p.minFramesSilent →
      (visStep p s f).speaking = true) := by
  have hsm := visStep_smoothR p s f
  have hmain : (visStep p s f).speaking = false →
      p.minFramesSilent ≤ s.consecSilent + 1 ∧
      (visStep p s f).smoothR < b * p.releaseMult := by
    intro hoff
    rw [hsm]
    simp only [visStep, hb, hs, eq_self_iff_true, if_true, true_and,
      apply_ite VisState.speaking, ite_self] at hoff
    simp at hoff
    obtain ⟨-, h2, h3⟩ := hoff
    refine ⟨h2, ?_⟩
    simpa [smoothedRatio] using h3
  refine ⟨hmain, ?_⟩
  intro h0 h2
  by_contra hoff
  have hoff2 : (visStep p s f).speaking = false := by
    cases hsp : (visStep p s f).speaking
    · rfl
    · exact absurd hsp hoff
  have hge := (hmain hoff2).1
  omega

/-- Parameters used by the C6 witness and counterexample: multipliers as the
defaults, warm-up 1 frame, speak-on after 1 frame, speak-off after 2. -/
def visP : VisParams := ⟨8/5, 13/10, 1, 2, 1⟩

/-- A concrete speaking state with a locked baseline 1/10, one silent frame
already counted and a smoothed ratio of 19/125. -/
def visSpeakState : VisState :=
  ⟨some (1/10), some 10, some 10, [1/10], [10], [10], true, 0, 1, 19/125, some (0, 0)⟩

/-- A closed-mouth frame (vertical lip distance 0). -/
def vfLow : VisFrame := ⟨0, 10, some 10, 0, 0⟩

/-- Witness for `C6_speak_off_requires_debounce_and_release` at the concrete
speaking state and closed-mouth frame (which does flip speaking off). -/
theorem C6_speak_off_requires_debounce_and_release_witness :
    visSpeakState.baselineR = some (1/10) ∧ visSpeakState.speaking = true ∧
    (((visStep visP visSpeakState vfLow).speaking = false →
       visP.minFramesSilent ≤ visSpeakState.consecSilent + 1 ∧
       (visStep visP visSpeakState vfLow).smoothR < (1/10) * visP.releaseMult) ∧
     (visSpeakState.consecSilent = 0 → 2 ≤ visP.minFramesSilent →
       (visStep visP visSpeakState vfLow).speaking = true)) :=
  ⟨rfl, rfl,
   C6_speak_off_requires_debounce_and_release visP visSpeakState vfLow (1/10)
     rfl rfl⟩

/-- The four frames of the C6 counterexample run: warm-up lock, speak-on,
one silent frame still at or above the release threshold, one below it. -/
def vfWarm : VisFrame := ⟨1, 10, some 10, 0, 0⟩
def vfOpen : VisFrame := ⟨5, 10, some 10, 0, 0⟩
def vfMid : VisFrame := ⟨2/5, 10, some 10, 0, 0⟩

/-- The intermediate states of the counterexample run, frame by frame. -/
def visS1 : VisState :=
  ⟨some (1/10), some 10, some 10, [1/10], [10], [10], false, 0, 0, 1/10, none⟩
def visS2 : VisState :=
  ⟨some (27/250), some 10, some 10, [1/10], [10], [10], true, 1, 0, 9/25, some (0, 0)⟩
def visS3 : VisState :=
  ⟨some (27/250), some 10, some 10, [1/10], [10], [10], true, 0, 1, 19/125, some (0, 0)⟩
def visS4 : VisState :=
  ⟨some (27/250), some 10, some 10, [1/10], [10], [10], false, 0, 2, 133/2500, some (0, 0)⟩

lemma visStep_ex1 : visStep visP visInit vfWarm = visS1 := by
  norm_num [visStep, visInit, visP, vfWarm, visS1, avgQ, min_def,
    Bool.and_eq_true, decide_eq_true_eq]

lemma visStep_ex2 : visStep visP visS1 vfOpen = visS2 := by
  norm_num [visStep, visS1, visP, vfOpen, visS2, avgQ, min_def,
    Bool.and_eq_true, decide_eq_true_eq]

lemma visStep_ex3 : visStep visP visS2 vfMid = visS3 := by
  norm_num [visStep, visS2, visP, vfMid, visS3, avgQ, min_def,
    Bool.and_eq_true, decide_eq_true_eq]

lemma visStep_ex4 : visStep visP visS3 vfLow = visS4 := by
  norm_num [visStep, visS3, visP, vfLow, visS4, avgQ, min_def,
    Bool.and_eq_true, decide_eq_true_eq]

/-- claim C6 — counterexample.  In the run below, speaking turns on at frame
2 and the two consecutive silent frames 3 and 4 flip it off at frame 4 —
but frame 3's smoothed ratio (19/125 = 0.152) is NOT below the release
threshold (baseline 27/250 times 1.3 = 0.1404): the source (lines 176-185)
only checks `ratio < releaseThreshold` on the transition frame, so "during
all of which the smoothed ratio is below releaseThreshold" is false. -/
theorem C6_release_not_required_on_all_frames :
    (visRun visP visInit [vfWarm, vfOpen]).speaking = true ∧
    (visRun visP visInit [vfWarm, vfOpen, vfMid]).speaking = true ∧
    (visRun visP visInit [vfWarm, vfOpen, vfMid]).consecSilent = 1 ∧
    (visRun visP visInit [vfWarm, vfOpen, vfMid, vfLow]).speaking = false ∧
    (visRun visP visInit [vfWarm, vfOpen, vfMid]).baselineR = some (27/250) ∧
    ¬ ((visRun visP visInit [vfWarm, vfOpen, vfMid]).smoothR <
        (27/250) * visP.releaseMult) := by
  have hrun2 : visRun visP visInit [vfWarm, vfOpen] = visS2 := by
    show visStep visP (visStep visP visInit vfWarm) vfOpen = visS2
    rw [visStep_ex1, visStep_ex2]
  have hrun3 : visRun visP visInit [vfWarm, vfOpen, vfMid] = visS3 := by
    show visStep visP (visStep visP (visStep visP visInit vfWarm) vfOpen) vfMid =
      visS3
    rw [visStep_ex1, visStep_ex2, visStep_ex3]
  have hrun4 : visRun visP visInit [vfWarm, vfOpen, vfMid, vfLow] = visS4 := by
    show visStep visP (visStep visP (visStep visP (visStep visP visInit vfWarm)
      vfOpen) vfMid) vfLow = visS4
    rw [visStep_ex1, visStep_ex2, visStep_ex3, visStep_ex4]
  rw [hrun2, hrun3, hrun4]
  refine ⟨rfl, rfl, rfl, rfl, rfl, ?_⟩
  norm_num [visS3, visP]

end VoiceCall
